import Mathlib

/-!
Verification of the replicated state-machine core (Raft consensus module and
slk serialization library) of the memgraph repository.

The slk byte-level and token-level definitions are shallow embeddings of
src/src/communication/rpc/serialization.hpp.  The Raft server definitions are
modelled from the specification document, because the repository snapshot
contains only the declaration header of the Raft server
(src/src/query/frontend/semantic/symbol_generator.hpp, second embedded file),
not its implementation.
-/

namespace slk

/-- A byte of the builder stream; values are kept below 256 by construction
of the save functions. -/
abbrev Byte := Nat

/-- Little-endian dump of the low k bytes of a natural number.  This embeds
the byte image produced by the primitive Save functions of
serialization.hpp (builder saves the raw bytes of the integer). -/
def saveBytes : Nat → Nat → List Byte
  | 0, _ => []
  | k + 1, n => n % 256 :: saveBytes k (n / 256)

/-- Little-endian read of k bytes, the inverse of saveBytes; returns the
decoded number and the remaining stream, or none if the stream is too
short (the reader signals a stream error in that case). -/
def loadBytes : Nat → List Byte → Option (Nat × List Byte)
  | 0, bs => some (0, bs)
  | _ + 1, [] => none
  | k + 1, b :: bs =>
    match loadBytes k bs with
    | none => none
    | some (n, rest) => some (b + 256 * n, rest)

/-- Save of a uint64 value: 8 bytes, little endian, as written by
slk Save for uint64_t in serialization.hpp. -/
def saveU64 (n : Nat) : List Byte := saveBytes 8 n

/-- Load of a uint64 value, as read by slk Load for uint64_t. -/
def loadU64 (bs : List Byte) : Option (Nat × List Byte) := loadBytes 8 bs

/-- Save of a vector: length as uint64 followed by every element, embedding
slk Save for std vector in serialization.hpp lines 162 to 169. -/
def saveVec (saveT : α → List Byte) (v : List α) : List Byte :=
  saveU64 v.length ++ (v.map saveT).flatten

/-- Load of a known number of consecutive elements, the loop body of slk
Load for std vector. -/
def loadCount (loadT : List Byte → Option (α × List Byte)) :
    Nat → List Byte → Option (List α × List Byte)
  | 0, bs => some ([], bs)
  | k + 1, bs =>
    match loadT bs with
    | none => none
    | some (x, rest) =>
      match loadCount loadT k rest with
      | none => none
      | some (xs, rest2) => some (x :: xs, rest2)

/-- Load of a vector: length as uint64 followed by that many elements,
embedding slk Load for std vector in serialization.hpp lines 171 to 179. -/
def loadVec (loadT : List Byte → Option (α × List Byte)) (bs : List Byte) :
    Option (List α × List Byte) :=
  match loadU64 bs with
  | none => none
  | some (size, rest) => loadCount loadT size rest

end slk

namespace raft

/-- Kinds of a state delta that the log entry buffer distinguishes.  The
three terminating kinds are recognized by the buffer; setValue and noOp
stand for the data kinds that are opaque to Raft. -/
inductive DeltaKind
  | txBegin
  | txCommit
  | txAbort
  | setValue
  | noOp
  deriving DecidableEq

/-- A single mutation record produced by a local transaction, carrying the
id of the transaction that produced it. -/
structure StateDelta where
  kind : DeltaKind
  txId : Nat
  deriving DecidableEq

/-- One replication unit: the deltas of one transaction together with the
term in which the entry was first appended. -/
structure LogEntry where
  term : Nat
  deltas : List StateDelta
  deriving DecidableEq

/-- Numeric code of a delta kind used by the serialization model. -/
def kindCode : DeltaKind → Nat
  | .txBegin => 0
  | .txCommit => 1
  | .txAbort => 2
  | .setValue => 3
  | .noOp => 4

/-- Decode of a delta kind from its numeric code. -/
def kindOfCode : Nat → Option DeltaKind
  | 0 => some .txBegin
  | 1 => some .txCommit
  | 2 => some .txAbort
  | 3 => some .setValue
  | 4 => some .noOp
  | _ => none

/-- Modelled from the spec: serialization of one StateDelta (the StateDelta
slk functions are not part of the snapshot).  A delta is a tagged variant
of kind and payload; the model writes the kind code and the transaction id
as uint64 values. -/
def saveDelta (d : StateDelta) : List slk.Byte :=
  slk.saveU64 (kindCode d.kind) ++ slk.saveU64 d.txId

/-- Modelled from the spec: deserialization of one StateDelta, inverse of
saveDelta. -/
def loadDelta (bs : List slk.Byte) : Option (StateDelta × List slk.Byte) :=
  match slk.loadU64 bs with
  | none => none
  | some (c, rest) =>
    match slk.loadU64 rest with
    | none => none
    | some (t, rest2) =>
      match kindOfCode c with
      | none => none
      | some k => some (⟨k, t⟩, rest2)

/-- Modelled from the spec: serialization of one LogEntry; each entry is the
term followed by the length-prefixed delta vector (spec section 4.1). -/
def saveEntry (e : LogEntry) : List slk.Byte :=
  slk.saveU64 e.term ++ slk.saveVec saveDelta e.deltas

/-- Modelled from the spec: deserialization of one LogEntry, inverse of
saveEntry. -/
def loadEntry (bs : List slk.Byte) : Option (LogEntry × List slk.Byte) :=
  match slk.loadU64 bs with
  | none => none
  | some (t, rest) =>
    match slk.loadVec loadDelta rest with
    | none => none
    | some (ds, rest2) => some (⟨t, ds⟩, rest2)

/-- Modelled from the spec: RaftServer SerializeLog; the log is serialized
as a length-prefixed sequence of entries via the slk vector save of
serialization.hpp. -/
def SerializeLog (log : List LogEntry) : List slk.Byte :=
  slk.saveVec saveEntry log

/-- Modelled from the spec: RaftServer DeserializeLog, reading back the
length-prefixed entry sequence; returns none when decoding fails. -/
def DeserializeLog (bs : List slk.Byte) : Option (List LogEntry) :=
  match slk.loadVec loadEntry bs with
  | none => none
  | some (log, _) => some log

/-- The uint64 bound: values stored in 64-bit fields of the C++ code. -/
def W64 : Nat := 2 ^ 64

/-- A delta is representable when its transaction id fits in uint64. -/
def wfDelta (d : StateDelta) : Bool := decide (d.txId < W64)

/-- An entry is representable when its term and all deltas fit in uint64
and the delta vector length fits in uint64. -/
def wfEntry (e : LogEntry) : Bool :=
  decide (e.term < W64) && decide (e.deltas.length < W64) && e.deltas.all wfDelta

/-- A log is representable when its length and all its entries fit. -/
def wfLog (log : List LogEntry) : Bool :=
  decide (log.length < W64) && log.all wfEntry

end raft

namespace raft

/-- Modelled from the spec: the replication log (component C2), a
per-transaction pair of bits kept here as the two sets of transaction ids
whose replicated respectively safe-to-commit bit is set. -/
structure RLog where
  replicated : List Nat
  safe : List Nat
  deriving DecidableEq

/-- The replicated bit of one transaction. -/
def RLog.isReplicated (r : RLog) (tx : Nat) : Bool := r.replicated.contains tx

/-- The safe-to-commit bit of one transaction. -/
def RLog.isSafe (r : RLog) (tx : Nat) : Bool := r.safe.contains tx

/-- Set the safe-to-commit bit of one transaction. -/
def RLog.setSafe (r : RLog) (tx : Nat) : RLog :=
  ⟨r.replicated, if r.safe.contains tx then r.safe else tx :: r.safe⟩

/-- Modelled from the spec: RaftServer ResetReplicationLog clears all bits
(used on the transition out of Leader mode). -/
def RLog.reset : RLog := ⟨[], []⟩

/-- Modelled from the spec: RaftServer GarbageCollectReplicationLog removes
the replication-log entries whose transaction ids are at most the given
threshold. -/
def GarbageCollectReplicationLog (t : Nat) (r : RLog) : RLog :=
  ⟨r.replicated.filter (fun x => decide (t < x)),
   r.safe.filter (fun x => decide (t < x))⟩

/-- The mode of a Raft server. -/
inductive Mode
  | Follower
  | Candidate
  | Leader
  deriving DecidableEq

/-- Modelled from the spec: the mutable state of one Raft server that the
verified operations touch.  matchIndex has one entry per peer; the cluster
size is the number of peers plus one for this server. -/
structure RaftState where
  currentTerm : Nat
  votedFor : Option Nat
  log : List LogEntry
  commitIndex : Nat
  lastApplied : Nat
  mode : Mode
  matchIndex : List Nat
  rlog : RLog
  aborted : List Nat
  exiting : Bool
  deriving DecidableEq

/-- Entry of a 1-indexed log at a given index; a default entry of term 0
stands for an absent index. -/
def entryAtL (log : List LogEntry) (i : Nat) : LogEntry :=
  log.getD (i - 1) ⟨0, []⟩

/-- Entry of the server log at a given 1-based index. -/
def entryAt (s : RaftState) (i : Nat) : LogEntry := entryAtL s.log i

/-- Modelled from the spec: RaftServer LastEntryData, the pair of the index
and the term of the last entry of the log (0, 0 for an empty log). -/
def LastEntryData (s : RaftState) : Nat × Nat :=
  (s.log.length, (entryAtL s.log s.log.length).term)

/-- Modelled from the spec: RaftServer AtLeastUpToDate, Raft paper 5.4; the
log described by the first pair is at least as up to date as the log
described by the second pair under the lexicographic order on
(last log term, last log index). -/
def AtLeastUpToDate (lastLogIndexA lastLogTermA lastLogIndexB lastLogTermB : Nat) : Bool :=
  (decide (lastLogTermB < lastLogTermA)) ||
    ((lastLogTermA == lastLogTermB) && decide (lastLogIndexB ≤ lastLogIndexA))

/-- Modelled from the spec: observing any reply or incoming request with a
term strictly greater than currentTerm forces the step down: the new term
is adopted, votedFor is cleared, the server becomes a Follower and the
replication log is reset.  This is the state effect of RaftServer
OutOfSync together with UpdateTerm and ResetReplicationLog. -/
def OutOfSync (s : RaftState) (t : Nat) : RaftState :=
  if s.currentTerm < t then
    { s with currentTerm := t, votedFor := none, mode := Mode.Follower,
             rlog := RLog.reset }
  else s

/-- A RequestVote request. -/
structure RequestVoteReq where
  term : Nat
  candidateId : Nat
  lastLogIndex : Nat
  lastLogTerm : Nat
  deriving DecidableEq

/-- A RequestVote reply. -/
structure RequestVoteRes where
  term : Nat
  voteGranted : Bool
  deriving DecidableEq

/-- Modelled from the spec: the RequestVote handler.  The term is updated
first when the request term is strictly greater; the vote is granted when
the request term is not below the (updated) current term, votedFor for the
current term is free or already the candidate, and the candidate log is at
least as up to date; the granted vote is recorded in votedFor in the
returned state and the reply carries the resulting current term. -/
def RequestVoteHandler (s : RaftState) (req : RequestVoteReq) :
    RaftState × RequestVoteRes :=
  let s1 := OutOfSync s req.term
  if req.term < s1.currentTerm then (s1, ⟨s1.currentTerm, false⟩)
  else
    if (s1.votedFor = none ∨ s1.votedFor = some req.candidateId) ∧
        AtLeastUpToDate req.lastLogIndex req.lastLogTerm
          (LastEntryData s1).1 (LastEntryData s1).2 = true then
      ({ s1 with votedFor := some req.candidateId }, ⟨s1.currentTerm, true⟩)
    else (s1, ⟨s1.currentTerm, false⟩)

/-- An AppendEntries request. -/
structure AppendEntriesReq where
  term : Nat
  leaderId : Nat
  prevLogIndex : Nat
  prevLogTerm : Nat
  entries : List LogEntry
  leaderCommit : Nat
  deriving DecidableEq

/-- An AppendEntries reply. -/
structure AppendEntriesRes where
  term : Nat
  success : Bool
  deriving DecidableEq

/-- Modelled from the spec, steps 4 and 5 of the AppendEntries handling:
walk the new entries at consecutive 0-based log positions starting behind
prevLogIndex; an existing entry with the same index and term is kept, an
existing entry with a different term is deleted together with every entry
after it before the new entry is appended, and positions beyond the log
end are plain appends. -/
def mergeEntries (log : List LogEntry) (pos : Nat) (es : List LogEntry) :
    List LogEntry :=
  match es with
  | [] => log
  | e :: rest =>
    if pos < log.length then
      if (log.getD pos ⟨0, []⟩).term = e.term then
        mergeEntries log (pos + 1) rest
      else
        mergeEntries (log.take pos ++ [e]) (pos + 1) rest
    else mergeEntries (log ++ [e]) (pos + 1) rest

/-- Transaction ids carried by the deltas of one entry. -/
def entryTxIds (e : LogEntry) : List Nat := e.deltas.map StateDelta.txId

/-- Set the safe-to-commit bit of every transaction id in the list. -/
def markSafeList (r : RLog) (txs : List Nat) : RLog := txs.foldl RLog.setSafe r

/-- Modelled from the spec, steps 1 to 7 of the AppendEntries handling on a
follower: stale terms are rejected; a higher term forces the step down and
every accepted request leaves the server a Follower; the consistency check
compares the term at prevLogIndex; accepted entries are merged with
conflict truncation; a leaderCommit beyond commitIndex advances
commitIndex to the minimum of leaderCommit and the last log index and
applies the newly committed entries in ascending index order, marking
their transaction ids safe to commit.  The second component of the result
pair after the reply is the list of applied transaction ids in apply
order. -/
def AppendEntriesHandler (s : RaftState) (req : AppendEntriesReq) :
    RaftState × AppendEntriesRes × List Nat :=
  if req.term < s.currentTerm then (s, ⟨s.currentTerm, false⟩, [])
  else
    let s1 := { OutOfSync s req.term with mode := Mode.Follower }
    if 0 < req.prevLogIndex ∧
        (s1.log.length < req.prevLogIndex ∨
          (entryAtL s1.log req.prevLogIndex).term ≠ req.prevLogTerm) then
      (s1, ⟨s1.currentTerm, false⟩, [])
    else
      let newLog := mergeEntries s1.log req.prevLogIndex req.entries
      let s2 := { s1 with log := newLog }
      if s2.commitIndex < req.leaderCommit then
        let newCommit := Nat.min req.leaderCommit newLog.length
        let txs :=
          ((List.range' (s2.lastApplied + 1) (newCommit - s2.lastApplied)).map
            (fun i => entryTxIds (entryAtL newLog i))).flatten
        ({ s2 with commitIndex := newCommit, lastApplied := newCommit,
                   rlog := markSafeList s2.rlog txs },
         ⟨s2.currentTerm, true⟩, txs)
      else (s2, ⟨s2.currentTerm, true⟩, [])

/-- Number of cluster members known to hold index i: the leader itself plus
every peer whose matchIndex is at least i. -/
def matchCount (s : RaftState) (i : Nat) : Nat :=
  1 + (s.matchIndex.filter (fun m => decide (i ≤ m))).length

/-- Majority test for a count of servers out of the cluster of
matchIndex.length + 1 members. -/
def isMajority (s : RaftState) (k : Nat) : Bool :=
  decide (s.matchIndex.length + 1 < 2 * k)

/-- The 1-based log indexes stored on a majority of the cluster whose entry
carries the current term. -/
def commitCandidates (s : RaftState) : List Nat :=
  ((List.range s.log.length).map (fun j => j + 1)).filter
    (fun i => isMajority s (matchCount s i) &&
      ((entryAt s i).term == s.currentTerm))

/-- Largest commit candidate, 0 when there is none. -/
def maxCandidate (s : RaftState) : Nat :=
  (commitCandidates s).foldr Nat.max 0

/-- Modelled from the spec: RaftServer AdvanceCommitIndex on a leader.  Let
M be the largest index stored on a majority whose entry has the current
term; when M is greater than commitIndex, commitIndex becomes M and the
entries from lastApplied + 1 up to M are applied in ascending index order,
their transaction ids being marked safe to commit; otherwise the state is
unchanged.  The second component is the list of applied transaction ids in
apply order. -/
def AdvanceCommitIndex (s : RaftState) : RaftState × List Nat :=
  let m := maxCandidate s
  if s.commitIndex < m then
    let txs :=
      ((List.range' (s.lastApplied + 1) (m - s.lastApplied)).map
        (fun i => entryTxIds (entryAt s i))).flatten
    ({ s with commitIndex := m, lastApplied := m,
              rlog := markSafeList s.rlog txs }, txs)
  else (s, [])

end raft

namespace slk

/-- One primitive value on the builder stream, at the granularity used by
the shared-pointer Save and Load of serialization.hpp: a bool, a uint64
index, or one serialized payload object (payloads are uint64 values
here). -/
inductive Token
  | tokB (b : Bool)
  | tokU (n : Nat)
  | tokV (v : Nat)
  deriving DecidableEq

/-- Decoding failures: decodeError is the SlkDecodeException thrown by the
shared-pointer Load; streamError stands for any reader failure on a
malformed or exhausted stream. -/
inductive LoadErr
  | decodeError
  | streamError
  deriving DecidableEq

/-- Index of the first occurrence of a value in a list, the std find of the
shared-pointer Save. -/
def idxOf (p : Nat) : List Nat → Option Nat
  | [] => none
  | q :: rest => if q = p then some 0 else (idxOf p rest).map (fun i => i + 1)

/-- Save of one shared pointer, embedding slk Save for std shared_ptr in
serialization.hpp lines 329 to 352.  A pointer is none for null or some
pair of a pointer identity and the pointed-to value; saved is the vector
of pointer identities already saved in this builder session.  The first
occurrence of a pointer is written in place and recorded; later
occurrences are written as a back-reference index only. -/
def SaveShared (obj : Option (Nat × Nat)) (saved : List Nat) :
    List Token × List Nat :=
  match obj with
  | none => ([Token.tokB false], saved)
  | some (p, v) =>
    match idxOf p saved with
    | some i => ([Token.tokB true, Token.tokB false, Token.tokU i], saved)
    | none => ([Token.tokB true, Token.tokB true, Token.tokV v], saved ++ [p])

/-- Load of one shared pointer, embedding slk Load for std shared_ptr in
serialization.hpp lines 354 to 385.  loaded is the vector of values loaded
in place so far; a loaded pointer is none for null or some pair of an
object identity and the value, where the object identity is the position
in loaded at which the object was created, so two loaded pointers alias
exactly when they carry the same identity.  A back-reference index not
below the loaded count throws the SlkDecodeException. -/
def LoadShared (ts : List Token) (loaded : List Nat) :
    Except LoadErr (Option (Nat × Nat) × List Token × List Nat) :=
  match ts with
  | Token.tokB false :: rest => Except.ok (none, rest, loaded)
  | Token.tokB true :: Token.tokB true :: Token.tokV v :: rest =>
    Except.ok (some (loaded.length, v), rest, loaded ++ [v])
  | Token.tokB true :: Token.tokB false :: Token.tokU i :: rest =>
    if i < loaded.length then Except.ok (some (i, loaded.getD i 0), rest, loaded)
    else Except.error LoadErr.decodeError
  | _ => Except.error LoadErr.streamError

/-- Save of a sequence of shared pointers within one builder session,
threading the saved vector through consecutive SaveShared calls. -/
def saveSharedSeq (ps : List (Option (Nat × Nat))) (saved : List Nat) :
    List Token :=
  match ps with
  | [] => []
  | obj :: rest =>
    let r := SaveShared obj saved
    r.1 ++ saveSharedSeq rest r.2

/-- Load of a known number of shared pointers within one reader session,
threading the loaded vector through consecutive LoadShared calls. -/
def loadSharedSeq (n : Nat) (ts : List Token) (loaded : List Nat) :
    Except LoadErr (List (Option (Nat × Nat)) × List Token × List Nat) :=
  match n with
  | 0 => Except.ok ([], ts, loaded)
  | k + 1 =>
    match LoadShared ts loaded with
    | Except.error e => Except.error e
    | Except.ok (obj, rest, loaded2) =>
      match loadSharedSeq k rest loaded2 with
      | Except.error e => Except.error e
      | Except.ok (objs, rest2, loaded3) =>
        Except.ok (obj :: objs, rest2, loaded3)

/-- Canonical form of a pointer sequence: every pointer identity is renamed
to the position, among the first occurrences seen so far, of its first
occurrence.  The canonical form has the same values and the same aliasing
pattern as the input, expressed with the identities the loader creates. -/
def canonSeq (ps : List (Option (Nat × Nat))) (saved : List Nat) :
    List (Option (Nat × Nat)) :=
  match ps with
  | [] => []
  | none :: rest => none :: canonSeq rest saved
  | some (p, v) :: rest =>
    match idxOf p saved with
    | some i => some (i, v) :: canonSeq rest saved
    | none => some (saved.length, v) :: canonSeq rest (saved ++ [p])

/-- Value of the first in-place occurrence of a pointer identity in a
sequence (0 when the identity never occurs). -/
def firstVal (ps : List (Option (Nat × Nat))) (p : Nat) : Nat :=
  match ps with
  | [] => 0
  | none :: rest => firstVal rest p
  | some (q, v) :: rest => if q = p then v else firstVal rest p

/-- A pointer sequence is well formed when every occurrence of a pointer
identity carries the value of its first occurrence: one shared object has
one value. -/
def wfPtrs (ps : List (Option (Nat × Nat))) : Bool :=
  ps.all (fun e =>
    match e with
    | none => true
    | some (p, v) => v == firstVal ps p)

end slk

namespace raft

/-- State of the log entry buffer: the enabled flag and the map from
transaction ids to the buffered delta sequences, kept as an association
list with at most one entry per key. -/
structure BufferState where
  enabled : Bool
  logs : List (Nat × List StateDelta)
  deriving DecidableEq

/-- Buffered sequence of one transaction, empty when the key is absent. -/
def getSeq : List (Nat × List StateDelta) → Nat → List StateDelta
  | [], _ => []
  | e :: rest, tx => if e.1 = tx then e.2 else getSeq rest tx

/-- Remove the entry of one transaction from the map. -/
def eraseSeq : List (Nat × List StateDelta) → Nat → List (Nat × List StateDelta)
  | [], _ => []
  | e :: rest, tx => if e.1 = tx then eraseSeq rest tx else e :: eraseSeq rest tx

/-- Store the sequence of one transaction in the map, replacing an existing
entry or appending a new one. -/
def setSeq : List (Nat × List StateDelta) → Nat → List StateDelta →
    List (Nat × List StateDelta)
  | [], tx, v => [(tx, v)]
  | e :: rest, tx, v => if e.1 = tx then (tx, v) :: rest else e :: setSeq rest tx v

/-- Membership of a transaction key in the map. -/
def hasSeq (m : List (Nat × List StateDelta)) (tx : Nat) : Bool :=
  m.any (fun e => e.1 == tx)

/-- Modelled from the spec: LogEntryBuffer Emplace.  While the buffer is
disabled the call is a no-op.  While enabled: a TRANSACTION_ABORT delta
drops the buffered sequence of its transaction; a TRANSACTION_COMMIT delta
is appended, the full buffered sequence is handed to RaftServer
AppendToLog (the second component of the result is that call, none when no
call is made), and the sequence is dropped; any other delta is appended to
the sequence of its transaction. -/
def Emplace (b : BufferState) (d : StateDelta) :
    BufferState × Option (Nat × List StateDelta) :=
  if b.enabled then
    match d.kind with
    | DeltaKind.txAbort => ({ b with logs := eraseSeq b.logs d.txId }, none)
    | DeltaKind.txCommit =>
      ({ b with logs := eraseSeq b.logs d.txId },
       some (d.txId, getSeq b.logs d.txId ++ [d]))
    | _ =>
      ({ b with logs := setSeq b.logs d.txId (getSeq b.logs d.txId ++ [d]) },
       none)
  else (b, none)

/-- Emplace of a whole delta sequence, collecting the AppendToLog calls in
order. -/
def EmplaceAll (b : BufferState) (ds : List StateDelta) :
    BufferState × List (Nat × List StateDelta) :=
  match ds with
  | [] => (b, [])
  | d :: rest =>
    let r := Emplace b d
    let r2 := EmplaceAll r.1 rest
    (r2.1, (match r.2 with | none => [] | some c => [c]) ++ r2.2)

/-- Modelled from the spec: one observation of the state by a writer blocked
in RaftServer SafeToCommit.  The call returns true when the replication
log reports the transaction safe to commit, false when the server is
shutting down or no longer the Leader or the transaction is known aborted,
and keeps waiting (none) otherwise. -/
def SafeToCommit (s : RaftState) (tx : Nat) : Option Bool :=
  if s.exiting then some false
  else if s.mode ≠ Mode.Leader then some false
  else if s.rlog.isSafe tx then some true
  else if s.aborted.contains tx then some false
  else none

/-- Failure raised on a read of a required persistent key that is absent. -/
inductive PersistErr
  | missingPersistentData
  deriving DecidableEq

/-- Modelled from the spec: the persistent metadata store (component C1)
holding the three logical records; none stands for an absent key. -/
structure PersistentStore where
  currentTerm : Option Nat
  votedFor : Option Nat
  log : Option (List LogEntry)
  deriving DecidableEq

/-- Modelled from the spec: RaftServer CurrentTerm reads the current term
record and raises MissingPersistentData when the key is absent. -/
def CurrentTerm (st : PersistentStore) : Except PersistErr Nat :=
  match st.currentTerm with
  | none => Except.error PersistErr.missingPersistentData
  | some t => Except.ok t

/-- Modelled from the spec: RaftServer VotedFor reads the voted-for record;
an absent key means no vote. -/
def VotedFor (st : PersistentStore) : Option Nat := st.votedFor

/-- Modelled from the spec: RaftServer Log reads the log record; an absent
key yields the empty log. -/
def Log (st : PersistentStore) : List LogEntry :=
  match st.log with
  | none => []
  | some l => l

/-- Modelled from the spec: the startup initialization seeds an absent
current term record with 0, so a fresh server starts without error. -/
def initPersistentStore (st : PersistentStore) : PersistentStore :=
  { st with currentTerm := some (st.currentTerm.getD 0) }

/-- Modelled from the spec: recovery on startup reads the three records
after the startup initialization. -/
def Recover (st : PersistentStore) :
    Except PersistErr (Nat × Option Nat × List LogEntry) :=
  match CurrentTerm (initPersistentStore st) with
  | Except.error e => Except.error e
  | Except.ok t => Except.ok (t, VotedFor st, Log st)

/-- A fresh durability directory: every key absent. -/
def freshStore : PersistentStore := ⟨none, none, none⟩

end raft

namespace raft

lemma hasSeq_eraseSeq (m : List (Nat × List StateDelta)) (tx : Nat) :
    hasSeq (eraseSeq m tx) tx = false := by
  induction m with
  | nil => rfl
  | cons e rest ih =>
    by_cases h : e.1 = tx
    · simpa [eraseSeq, h] using ih
    · have hcons : eraseSeq (e :: rest) tx = e :: eraseSeq rest tx := by
        simp [eraseSeq, h]
      rw [hcons]
      show (e.1 == tx || (eraseSeq rest tx).any (fun x => x.1 == tx)) = false
      rw [Bool.or_eq_false_iff]
      exact ⟨by simpa using h, ih⟩

/-- C9: GarbageCollectReplicationLog is idempotent for a fixed threshold and
each call removes exactly the replication-log entries whose transaction
ids are at most the threshold. -/
theorem claim_C9_gc_idempotent (t : Nat) (r : RLog) :
    GarbageCollectReplicationLog t (GarbageCollectReplicationLog t r) =
      GarbageCollectReplicationLog t r ∧
    (∀ x, x ∈ (GarbageCollectReplicationLog t r).replicated ↔
      x ∈ r.replicated ∧ t < x) ∧
    (∀ x, x ∈ (GarbageCollectReplicationLog t r).safe ↔ x ∈ r.safe ∧ t < x) := by
  refine ⟨?_, ?_, ?_⟩
  · simp [GarbageCollectReplicationLog, List.filter_filter]
  · intro x
    simp [GarbageCollectReplicationLog, List.mem_filter]
  · intro x
    simp [GarbageCollectReplicationLog, List.mem_filter]

/-- C7: on startup a missing current term record is seeded with 0, a missing
voted-for record reads as none, a missing log reads as the empty log, so a
fresh server recovers without error, while a plain read of the required
current term key raises MissingPersistentData when the key is absent. -/
theorem claim_C7_startup_defaults (st : PersistentStore) :
    (st.currentTerm = none → CurrentTerm (initPersistentStore st) = Except.ok 0) ∧
    (st.votedFor = none → VotedFor st = none) ∧
    (st.log = none → Log st = []) ∧
    Recover freshStore = Except.ok (0, none, []) ∧
    (st.currentTerm = none →
      CurrentTerm st = Except.error PersistErr.missingPersistentData) := by
  refine ⟨?_, ?_, ?_, rfl, ?_⟩
  · intro h
    simp [CurrentTerm, initPersistentStore, h]
  · intro h
    simp [VotedFor, h]
  · intro h
    simp [Log, h]
  · intro h
    simp [CurrentTerm, h]

theorem claim_C7_startup_defaults_witness :
    CurrentTerm (initPersistentStore freshStore) = Except.ok 0 :=
  (claim_C7_startup_defaults freshStore).1 rfl

/-- C6: one observation of a writer blocked in SafeToCommit returns true
only when the replication log reports the transaction safe to commit,
returns false only when the transaction is known aborted or the server is
no longer Leader or is shutting down, and keeps the writer blocked exactly
when none of these outcomes holds. -/
theorem claim_C6_safe_to_commit (s : RaftState) (tx : Nat) :
    (SafeToCommit s tx = some true → s.rlog.isSafe tx = true) ∧
    (SafeToCommit s tx = some false →
      s.aborted.contains tx = true ∨ s.mode ≠ Mode.Leader ∨ s.exiting = true) ∧
    (SafeToCommit s tx = none →
      s.rlog.isSafe tx = false ∧ s.aborted.contains tx = false ∧
        s.mode = Mode.Leader ∧ s.exiting = false) := by
  by_cases he : s.exiting
  · refine ⟨?_, ?_, ?_⟩ <;> intro h
    · simp [SafeToCommit, he] at h
    · exact Or.inr (Or.inr he)
    · simp [SafeToCommit, he] at h
  · by_cases hm : s.mode = Mode.Leader
    · by_cases hs : s.rlog.isSafe tx
      · refine ⟨?_, ?_, ?_⟩ <;> intro h
        · exact hs
        · simp [SafeToCommit, he, hm, hs] at h
        · simp [SafeToCommit, he, hm, hs] at h
      · by_cases ha : s.aborted.contains tx
        · refine ⟨?_, ?_, ?_⟩ <;> intro h
          · simp [SafeToCommit, he, hm, hs, ha] at h
          · exact Or.inl ha
          · simp [SafeToCommit, he, hm, hs] at h
            exact absurd (by simpa using ha) h
        · refine ⟨?_, ?_, ?_⟩ <;> intro h
          · simp [SafeToCommit, he, hm, hs, ha] at h
          · simp [SafeToCommit, he, hm, hs] at h
            exact absurd h (by simpa using ha)
          · exact ⟨by simpa using hs, by simpa using ha, hm, by simpa using he⟩
    · refine ⟨?_, ?_, ?_⟩ <;> intro h
      · simp [SafeToCommit, he, hm] at h
      · exact Or.inr (Or.inl hm)
      · simp [SafeToCommit, he, hm] at h

def c6State : RaftState :=
  ⟨1, none, [], 0, 0, Mode.Leader, [], ⟨[7], [7]⟩, [], false⟩

theorem claim_C6_safe_to_commit_witness : (c6State).rlog.isSafe 7 = true :=
  (claim_C6_safe_to_commit c6State 7).1 rfl

/-- C2: while the buffer is disabled Emplace is a no-op; while enabled, a
TRANSACTION_ABORT delta discards the buffered sequence of its transaction
without an AppendToLog call, a TRANSACTION_COMMIT delta is appended and
the full sequence is handed to AppendToLog and removed from the map, any
other delta is appended to the sequence of its transaction; after a
discard the map no longer contains the key, and the concrete sequence
BEGIN, SET, SET, ABORT for transaction 42 produces no AppendToLog call and
leaves the map without key 42. -/
theorem claim_C2_emplace (b : BufferState) (d : StateDelta) :
    (b.enabled = false → Emplace b d = (b, none)) ∧
    (b.enabled = true → d.kind = DeltaKind.txAbort →
      Emplace b d = ({ b with logs := eraseSeq b.logs d.txId }, none)) ∧
    (b.enabled = true → d.kind = DeltaKind.txCommit →
      Emplace b d = ({ b with logs := eraseSeq b.logs d.txId },
        some (d.txId, getSeq b.logs d.txId ++ [d]))) ∧
    (b.enabled = true → d.kind ≠ DeltaKind.txAbort →
      d.kind ≠ DeltaKind.txCommit →
      Emplace b d =
        ({ b with logs := setSeq b.logs d.txId (getSeq b.logs d.txId ++ [d]) },
         none)) ∧
    (∀ m tx, hasSeq (eraseSeq m tx) tx = false) ∧
    (EmplaceAll ⟨true, []⟩
      [⟨DeltaKind.txBegin, 42⟩, ⟨DeltaKind.setValue, 42⟩,
       ⟨DeltaKind.setValue, 42⟩, ⟨DeltaKind.txAbort, 42⟩] =
        (⟨true, []⟩, []) ∧
      hasSeq (EmplaceAll ⟨true, []⟩
        [⟨DeltaKind.txBegin, 42⟩, ⟨DeltaKind.setValue, 42⟩,
         ⟨DeltaKind.setValue, 42⟩, ⟨DeltaKind.txAbort, 42⟩]).1.logs 42 =
        false) := by
  refine ⟨?_, ?_, ?_, ?_, hasSeq_eraseSeq, by decide, by decide⟩
  · intro h
    simp [Emplace, h]
  · intro h hk
    simp [Emplace, h, hk]
  · intro h hk
    simp [Emplace, h, hk]
  · intro h hk1 hk2
    cases hd : d.kind <;> simp_all [Emplace]

theorem claim_C2_emplace_witness :
    Emplace ⟨true, [(42, [⟨DeltaKind.txBegin, 42⟩])]⟩ ⟨DeltaKind.txAbort, 42⟩ =
      (⟨true, []⟩, none) := by
  have h := (claim_C2_emplace ⟨true, [(42, [⟨DeltaKind.txBegin, 42⟩])]⟩
    ⟨DeltaKind.txAbort, 42⟩).2.1 rfl rfl
  simpa [eraseSeq] using h

end raft

namespace raft

lemma outOfSync_pos (s : RaftState) (t : Nat) (h : s.currentTerm < t) :
    OutOfSync s t =
      { s with currentTerm := t, votedFor := none, mode := Mode.Follower,
               rlog := RLog.reset } := by
  simp [OutOfSync, h]

/-- C5: observing a reply or request term strictly above the current term
makes the server adopt that term, clear votedFor, fall back to Follower
mode and reset the replication log with both bits of every transaction
cleared; the AppendEntries and RequestVote handlers perform this step, so
after handling a request of such a term the server carries that term and
Follower mode. -/
theorem claim_C5_higher_term (s : RaftState) (t : Nat) (h : s.currentTerm < t) :
    (OutOfSync s t).currentTerm = t ∧
    (OutOfSync s t).votedFor = none ∧
    (OutOfSync s t).mode = Mode.Follower ∧
    (OutOfSync s t).rlog = RLog.reset ∧
    (∀ tx, (OutOfSync s t).rlog.isReplicated tx = false ∧
      (OutOfSync s t).rlog.isSafe tx = false) ∧
    (∀ req : AppendEntriesReq, req.term = t →
      (AppendEntriesHandler s req).1.currentTerm = t ∧
      (AppendEntriesHandler s req).1.mode = Mode.Follower) ∧
    (∀ req : RequestVoteReq, req.term = t →
      (RequestVoteHandler s req).1.currentTerm = t ∧
      (RequestVoteHandler s req).1.mode = Mode.Follower) := by
  rw [outOfSync_pos s t h]
  refine ⟨rfl, rfl, rfl, rfl, fun tx => ⟨rfl, rfl⟩, ?_, ?_⟩
  · intro req hreq
    subst hreq
    unfold AppendEntriesHandler
    rw [if_neg (by omega)]
    dsimp only
    rw [outOfSync_pos s req.term h]
    split
    · exact ⟨rfl, rfl⟩
    · split
      · exact ⟨rfl, rfl⟩
      · exact ⟨rfl, rfl⟩
  · intro req hreq
    subst hreq
    unfold RequestVoteHandler
    dsimp only
    rw [outOfSync_pos s req.term h]
    rw [if_neg (by simp)]
    split
    · exact ⟨rfl, rfl⟩
    · exact ⟨rfl, rfl⟩

def c5State : RaftState :=
  ⟨3, some 2, [], 0, 0, Mode.Leader, [4, 4], ⟨[9], [9]⟩, [], false⟩

theorem claim_C5_higher_term_witness :
    (OutOfSync c5State 7).currentTerm = 7 ∧
      (OutOfSync c5State 7).votedFor = none ∧
      (OutOfSync c5State 7).mode = Mode.Follower :=
  ⟨(claim_C5_higher_term c5State 7 (by decide)).1,
   (claim_C5_higher_term c5State 7 (by decide)).2.1,
   (claim_C5_higher_term c5State 7 (by decide)).2.2.1⟩

end raft

namespace raft

lemma outOfSync_neg (s : RaftState) (t : Nat) (h : ¬ s.currentTerm < t) :
    OutOfSync s t = s := by
  simp [OutOfSync, h]

/-- C3: the RequestVote handler grants the vote exactly when the request
term is at least the receiver current term, votedFor for the current term
after the term update is free or already the candidate, and the candidate
pair of last log term and index is lexicographically at least the receiver
pair; a granted vote is recorded in votedFor of the resulting state, and
every reply carries the resulting current term. -/
theorem claim_C3_request_vote (s : RaftState) (req : RequestVoteReq) :
    ((RequestVoteHandler s req).2.voteGranted = true ↔
      (s.currentTerm ≤ req.term ∧
        ((if s.currentTerm < req.term then none else s.votedFor) = none ∨
          (if s.currentTerm < req.term then none else s.votedFor) =
            some req.candidateId) ∧
        AtLeastUpToDate req.lastLogIndex req.lastLogTerm
          (LastEntryData s).1 (LastEntryData s).2 = true)) ∧
    ((RequestVoteHandler s req).2.voteGranted = true →
      (RequestVoteHandler s req).1.votedFor = some req.candidateId) ∧
    (RequestVoteHandler s req).2.term = (RequestVoteHandler s req).1.currentTerm := by
  by_cases hlt : s.currentTerm < req.term
  · have hs1 := outOfSync_pos s req.term hlt
    unfold RequestVoteHandler
    dsimp only
    rw [hs1]
    rw [if_neg (by simp)]
    by_cases h2 : AtLeastUpToDate req.lastLogIndex req.lastLogTerm
        (LastEntryData s).1 (LastEntryData s).2 = true
    · rw [if_pos ⟨Or.inl rfl, h2⟩]
      refine ⟨?_, fun _ => rfl, rfl⟩
      constructor
      · intro _
        exact ⟨Nat.le_of_lt hlt, by rw [if_pos hlt]; exact Or.inl rfl, h2⟩
      · intro _
        rfl
    · rw [if_neg (fun hc => h2 hc.2)]
      refine ⟨?_, ?_, rfl⟩
      · constructor
        · intro habs
          simp at habs
        · rintro ⟨_, _, h3⟩
          exact absurd h3 h2
      · intro habs
        simp at habs
  · have hs1 := outOfSync_neg s req.term hlt
    unfold RequestVoteHandler
    dsimp only
    rw [hs1]
    by_cases hlt2 : req.term < s.currentTerm
    · rw [if_pos hlt2]
      refine ⟨?_, ?_, rfl⟩
      · constructor
        · intro habs
          simp at habs
        · rintro ⟨h1, _, _⟩
          omega
      · intro habs
        simp at habs
    · rw [if_neg hlt2]
      by_cases hc : (s.votedFor = none ∨ s.votedFor = some req.candidateId) ∧
          AtLeastUpToDate req.lastLogIndex req.lastLogTerm
            (LastEntryData s).1 (LastEntryData s).2 = true
      · rw [if_pos hc]
        refine ⟨?_, fun _ => rfl, rfl⟩
        constructor
        · intro _
          exact ⟨by omega, by rw [if_neg hlt]; exact hc.1, hc.2⟩
        · intro _
          rfl
      · rw [if_neg hc]
        refine ⟨?_, ?_, rfl⟩
        · constructor
          · intro habs
            simp at habs
          · rintro ⟨h1, h2, h3⟩
            rw [if_neg hlt] at h2
            exact absurd ⟨h2, h3⟩ hc
        · intro habs
          simp at habs

def c3State : RaftState :=
  ⟨2, none, [⟨1, []⟩, ⟨2, []⟩], 0, 0, Mode.Follower, [], RLog.reset, [], false⟩

theorem claim_C3_request_vote_witness :
    (RequestVoteHandler c3State ⟨3, 1, 2, 2⟩).2.voteGranted = true :=
  ((claim_C3_request_vote c3State ⟨3, 1, 2, 2⟩).1).2
    ⟨by decide, by decide, by decide⟩

end raft


namespace raft

lemma foldr_max_ge (l : List Nat) : ∀ j ∈ l, j ≤ l.foldr Nat.max 0 := by
  induction l with
  | nil => simp
  | cons a l ih =>
    intro j hj
    rcases List.mem_cons.mp hj with h | h
    · subst h
      exact Nat.le_max_left _ _
    · exact Nat.le_trans (ih j h) (Nat.le_max_right _ _)

lemma foldr_max_mem (l : List Nat) : l.foldr Nat.max 0 ∈ l ∨ l.foldr Nat.max 0 = 0 := by
  induction l with
  | nil => exact Or.inr rfl
  | cons a l ih =>
    show Nat.max a (l.foldr Nat.max 0) ∈ a :: l ∨ Nat.max a (l.foldr Nat.max 0) = 0
    rcases Nat.le_total a (l.foldr Nat.max 0) with hle | hle
    · have hmax : Nat.max a (l.foldr Nat.max 0) = l.foldr Nat.max 0 := by
        show max a (l.foldr Nat.max 0) = l.foldr Nat.max 0
        rw [Nat.max_def, if_pos hle]
      rw [hmax]
      rcases ih with h | h
      · exact Or.inl (List.mem_cons_of_mem a h)
      · exact Or.inr h
    · have hmax : Nat.max a (l.foldr Nat.max 0) = a := by
        show max a (l.foldr Nat.max 0) = a
        rw [Nat.max_def]
        by_cases h2 : a ≤ l.foldr Nat.max 0
        · rw [if_pos h2]
          omega
        · rw [if_neg h2]
      rw [hmax]
      exact Or.inl (List.mem_cons_self a l)

lemma isSafe_setSafe_self (r : RLog) (tx : Nat) :
    (r.setSafe tx).isSafe tx = true := by
  unfold RLog.setSafe RLog.isSafe
  dsimp only
  split
  · next hcond => exact hcond
  · next hcond => simp

lemma isSafe_setSafe_mono (r : RLog) (tx ty : Nat) (h : r.isSafe tx = true) :
    (r.setSafe ty).isSafe tx = true := by
  unfold RLog.isSafe at h
  unfold RLog.setSafe RLog.isSafe
  dsimp only
  split
  · exact h
  · simp only [List.contains_cons, h, Bool.or_true]

lemma isSafe_markSafeList_mono (txs : List Nat) (r : RLog) (tx : Nat)
    (h : r.isSafe tx = true) : (markSafeList r txs).isSafe tx = true := by
  induction txs generalizing r with
  | nil => exact h
  | cons a txs ih => exact ih (r.setSafe a) (isSafe_setSafe_mono r tx a h)

lemma isSafe_markSafeList (txs : List Nat) (r : RLog) (tx : Nat)
    (h : tx ∈ txs) : (markSafeList r txs).isSafe tx = true := by
  induction txs generalizing r with
  | nil => cases h
  | cons a txs ih =>
    rcases List.mem_cons.mp h with h1 | h1
    · subst h1
      exact isSafe_markSafeList_mono txs (r.setSafe tx) tx (isSafe_setSafe_self r tx)
    · exact ih (r.setSafe a) h1

/-- C1 amended: AdvanceCommitIndex leaves the state unchanged and applies
nothing unless some index is stored on a majority with an entry of the
current term and the largest such index exceeds commitIndex; in that case
commitIndex becomes that largest index M, the entry at M has the current
term and is stored on a majority, the entries from lastApplied + 1 to M
are applied in ascending index order, and every applied transaction id is
marked safe to commit in the replication log. -/
theorem claim_C1_advance_commit_index (s : RaftState) :
    (commitCandidates s = [] → AdvanceCommitIndex s = (s, [])) ∧
    (maxCandidate s ≤ s.commitIndex → AdvanceCommitIndex s = (s, [])) ∧
    (s.commitIndex < maxCandidate s →
      maxCandidate s ∈ commitCandidates s ∧
      (∀ j ∈ commitCandidates s, j ≤ maxCandidate s) ∧
      (entryAt s (maxCandidate s)).term = s.currentTerm ∧
      isMajority s (matchCount s (maxCandidate s)) = true ∧
      (AdvanceCommitIndex s).1.commitIndex = maxCandidate s ∧
      (AdvanceCommitIndex s).1.lastApplied = maxCandidate s ∧
      (AdvanceCommitIndex s).2 =
        ((List.range' (s.lastApplied + 1) (maxCandidate s - s.lastApplied)).map
          (fun i => entryTxIds (entryAt s i))).flatten ∧
      (∀ tx ∈ (AdvanceCommitIndex s).2,
        (AdvanceCommitIndex s).1.rlog.isSafe tx = true)) := by
  refine ⟨?_, ?_, ?_⟩
  · intro h
    have hm : maxCandidate s = 0 := by simp [maxCandidate, h]
    unfold AdvanceCommitIndex
    dsimp only
    rw [hm]
    rw [if_neg (Nat.not_lt_zero _)]
  · intro h
    unfold AdvanceCommitIndex
    dsimp only
    rw [if_neg (by omega)]
  · intro h
    have hne : commitCandidates s ≠ [] := by
      intro h0
      rw [show maxCandidate s = 0 from by simp [maxCandidate, h0]] at h
      exact Nat.not_lt_zero _ h
    have hmem : maxCandidate s ∈ commitCandidates s := by
      rcases foldr_max_mem (commitCandidates s) with h1 | h1
      · exact h1
      · rw [show maxCandidate s = (commitCandidates s).foldr Nat.max 0 from rfl,
            h1] at h
        exact absurd h (Nat.not_lt_zero _)
    have hmem2 := hmem
    simp only [commitCandidates, List.mem_filter, Bool.and_eq_true,
      beq_iff_eq] at hmem2
    have h5 : (AdvanceCommitIndex s).1.commitIndex = maxCandidate s := by
      unfold AdvanceCommitIndex
      dsimp only
      rw [if_pos h]
    have h6 : (AdvanceCommitIndex s).1.lastApplied = maxCandidate s := by
      unfold AdvanceCommitIndex
      dsimp only
      rw [if_pos h]
    have h7 : (AdvanceCommitIndex s).2 =
        ((List.range' (s.lastApplied + 1) (maxCandidate s - s.lastApplied)).map
          (fun i => entryTxIds (entryAt s i))).flatten := by
      unfold AdvanceCommitIndex
      dsimp only
      rw [if_pos h]
    have h8 : (AdvanceCommitIndex s).1.rlog =
        markSafeList s.rlog
          (((List.range' (s.lastApplied + 1)
              (maxCandidate s - s.lastApplied)).map
            (fun i => entryTxIds (entryAt s i))).flatten) := by
      unfold AdvanceCommitIndex
      dsimp only
      rw [if_pos h]
    refine ⟨hmem, foldr_max_ge (commitCandidates s), hmem2.2.2, hmem2.2.1,
      h5, h6, h7, ?_⟩
    intro tx htx
    rw [h7] at htx
    rw [h8]
    exact isSafe_markSafeList _ s.rlog tx htx

def c1State : RaftState :=
  ⟨4, none,
   [⟨3, [⟨DeltaKind.noOp, 1⟩]⟩,
    ⟨4, [⟨DeltaKind.txBegin, 2⟩, ⟨DeltaKind.txCommit, 2⟩]⟩],
   0, 0, Mode.Leader, [2, 2], RLog.reset, [], false⟩

theorem claim_C1_advance_commit_index_witness :
    (AdvanceCommitIndex c1State).1.commitIndex = maxCandidate c1State :=
  ((claim_C1_advance_commit_index c1State).2.2 (by decide)).2.2.2.2.1

def c1CexState : RaftState :=
  ⟨4, none, [⟨4, [⟨DeltaKind.noOp, 1⟩]⟩], 5, 5, Mode.Leader, [1, 1],
   RLog.reset, [], false⟩

/-- C1 counterexample: in a leader state whose commitIndex already exceeds
the largest majority-stored current-term index, commit candidates exist
yet AdvanceCommitIndex does not set commitIndex to the largest of them, so
the claim as stated fails on this input. -/
theorem claim_C1_counterexample :
    commitCandidates c1CexState ≠ [] ∧
    (AdvanceCommitIndex c1CexState).1.commitIndex ≠ maxCandidate c1CexState := by
  decide

end raft

namespace raft

lemma mergeEntries_append (es : List LogEntry) :
    ∀ (log : List LogEntry) (pos : Nat), log.length ≤ pos →
      mergeEntries log pos es = log ++ es := by
  induction es with
  | nil =>
    intro log pos h
    simp [mergeEntries]
  | cons e rest ih =>
    intro log pos h
    simp only [mergeEntries]
    rw [if_neg (by omega)]
    rw [ih (log ++ [e]) (pos + 1) (by simp; omega)]
    simp

lemma mergeEntries_conflict (es : List LogEntry) :
    ∀ (log : List LogEntry) (pos k : Nat), k < es.length →
      (∀ j, j < k → pos + j < log.length ∧
        (log.getD (pos + j) ⟨0, []⟩).term = (es.getD j ⟨0, []⟩).term) →
      pos + k < log.length →
      (log.getD (pos + k) ⟨0, []⟩).term ≠ (es.getD k ⟨0, []⟩).term →
      mergeEntries log pos es = log.take (pos + k) ++ es.drop k := by
  induction es with
  | nil =>
    intro log pos k hk
    exact absurd hk (Nat.not_lt_zero k)
  | cons e rest ih =>
    intro log pos k hk hpre hclt hcne
    cases k with
    | zero =>
      simp only [mergeEntries]
      rw [if_pos (by simpa using hclt)]
      rw [if_neg (by simpa using hcne)]
      rw [mergeEntries_append rest (log.take pos ++ [e]) (pos + 1)
        (by simp [List.length_take])]
      simp [List.append_assoc]
    | succ k =>
      have h0 := hpre 0 (Nat.succ_pos k)
      simp only [mergeEntries]
      rw [if_pos (by simpa using h0.1)]
      rw [if_pos (by simpa using h0.2)]
      rw [ih log (pos + 1) k (by simpa using hk)
        (by
          intro j hj
          have h1 := hpre (j + 1) (by omega)
          refine ⟨by omega, ?_⟩
          rw [show pos + 1 + j = pos + (j + 1) from by omega]
          simpa using h1.2)
        (by omega)
        (by
          rw [show pos + 1 + k = pos + (k + 1) from by omega]
          simpa using hcne)]
      rw [show pos + 1 + k = pos + (k + 1) from by omega]
      rfl

lemma outOfSync_log (s : RaftState) (t : Nat) : (OutOfSync s t).log = s.log := by
  unfold OutOfSync
  split <;> rfl

def c4State : RaftState :=
  ⟨1, none,
   [⟨1, [⟨DeltaKind.setValue, 1⟩]⟩, ⟨1, [⟨DeltaKind.setValue, 2⟩]⟩,
    ⟨2, [⟨DeltaKind.setValue, 3⟩]⟩],
   0, 0, Mode.Follower, [], RLog.reset, [], false⟩

def c4Req : AppendEntriesReq :=
  ⟨3, 1, 2, 1,
   [⟨2, [⟨DeltaKind.setValue, 4⟩]⟩, ⟨3, [⟨DeltaKind.setValue, 5⟩]⟩], 0⟩

/-- C4 amended: when the follower finds an existing entry whose index
matches a new entry but whose term differs, and the entries before the
conflict position agree in term, the handler deletes the conflicting entry
and everything after it and appends the remaining new entries, replying
success; in the concrete scenario of the claim the existing entry at index
3 has the same term 2 as the incoming entry, so it is kept, and the
follower ends with log exactly (1,A), (1,B), (2,X), (3,Z). -/
theorem claim_C4_conflict_truncation (s : RaftState) (req : AppendEntriesReq)
    (k : Nat) (hterm : ¬ req.term < s.currentTerm)
    (hcons : ¬ (0 < req.prevLogIndex ∧
      (s.log.length < req.prevLogIndex ∨
        (entryAtL s.log req.prevLogIndex).term ≠ req.prevLogTerm)))
    (hk : k < req.entries.length)
    (hpre : ∀ j, j < k → req.prevLogIndex + j < s.log.length ∧
      (s.log.getD (req.prevLogIndex + j) ⟨0, []⟩).term =
        (req.entries.getD j ⟨0, []⟩).term)
    (hclt : req.prevLogIndex + k < s.log.length)
    (hcne : (s.log.getD (req.prevLogIndex + k) ⟨0, []⟩).term ≠
      (req.entries.getD k ⟨0, []⟩).term) :
    (AppendEntriesHandler s req).1.log =
      s.log.take (req.prevLogIndex + k) ++ req.entries.drop k ∧
    (AppendEntriesHandler s req).2.1.success = true ∧
    (AppendEntriesHandler c4State c4Req).1.log =
      [⟨1, [⟨DeltaKind.setValue, 1⟩]⟩, ⟨1, [⟨DeltaKind.setValue, 2⟩]⟩,
       ⟨2, [⟨DeltaKind.setValue, 3⟩]⟩, ⟨3, [⟨DeltaKind.setValue, 5⟩]⟩] := by
  have hscen : (AppendEntriesHandler c4State c4Req).1.log =
      [⟨1, [⟨DeltaKind.setValue, 1⟩]⟩, ⟨1, [⟨DeltaKind.setValue, 2⟩]⟩,
       ⟨2, [⟨DeltaKind.setValue, 3⟩]⟩, ⟨3, [⟨DeltaKind.setValue, 5⟩]⟩] := by
    decide
  have hmerge := mergeEntries_conflict req.entries s.log req.prevLogIndex k hk
    hpre hclt hcne
  unfold AppendEntriesHandler
  rw [if_neg hterm]
  dsimp only
  simp only [outOfSync_log]
  rw [if_neg hcons]
  simp only [hmerge]
  split
  · exact ⟨rfl, rfl, hscen⟩
  · exact ⟨rfl, rfl, hscen⟩

def c4wState : RaftState :=
  ⟨1, none, [⟨1, [⟨DeltaKind.setValue, 1⟩]⟩, ⟨2, [⟨DeltaKind.setValue, 3⟩]⟩],
   0, 0, Mode.Follower, [], RLog.reset, [], false⟩

def c4wReq : AppendEntriesReq :=
  ⟨3, 1, 1, 1, [⟨3, [⟨DeltaKind.setValue, 4⟩]⟩], 0⟩

theorem claim_C4_conflict_truncation_witness :
    (AppendEntriesHandler c4wState c4wReq).1.log =
      c4wState.log.take (c4wReq.prevLogIndex + 0) ++ c4wReq.entries.drop 0 :=
  (claim_C4_conflict_truncation c4wState c4wReq 0 (by decide) (by decide)
    (by decide) (fun j hj => absurd hj (Nat.not_lt_zero j)) (by decide)
    (by decide)).1

/-- C4 counterexample: the concrete scenario of the claim ends with the
existing same-term entry (2,X) kept at index 3, not replaced by (2,Y), so
the final log asserted by the claim is not reached. -/
theorem claim_C4_counterexample :
    (AppendEntriesHandler c4State c4Req).1.log ≠
      [⟨1, [⟨DeltaKind.setValue, 1⟩]⟩, ⟨1, [⟨DeltaKind.setValue, 2⟩]⟩,
       ⟨2, [⟨DeltaKind.setValue, 4⟩]⟩, ⟨3, [⟨DeltaKind.setValue, 5⟩]⟩] := by
  decide

end raft

namespace slk

lemma loadBytes_saveBytes (k : Nat) : ∀ (n : Nat) (rest : List Byte),
    n < 256 ^ k → loadBytes k (saveBytes k n ++ rest) = some (n, rest) := by
  induction k with
  | zero =>
    intro n rest h
    have hn : n = 0 := by
      have : n < 1 := by simpa using h
      omega
    simp [saveBytes, loadBytes, hn]
  | succ k ih =>
    intro n rest h
    have hp : (256 : Nat) ^ (k + 1) = 256 ^ k * 256 := Nat.pow_succ 256 k
    have hdiv : n / 256 < 256 ^ k := by
      apply Nat.div_lt_of_lt_mul
      rw [Nat.mul_comm]
      rw [hp] at h
      exact h
    simp only [saveBytes, loadBytes, List.cons_append, List.append_eq]
    rw [ih (n / 256) rest hdiv]
    dsimp only
    rw [Nat.mod_add_div n 256]

lemma loadU64_saveU64 (n : Nat) (rest : List Byte) (h : n < raft.W64) :
    loadU64 (saveU64 n ++ rest) = some (n, rest) := by
  have h8 : n < 256 ^ 8 := by
    have he : (256 : Nat) ^ 8 = raft.W64 := by
      unfold raft.W64
      norm_num
    rw [he]
    exact h
  exact loadBytes_saveBytes 8 n rest h8

lemma loadCount_roundtrip (loadT : List Byte → Option (α × List Byte))
    (saveT : α → List Byte) (v : List α) (rest : List Byte)
    (hT : ∀ x ∈ v, ∀ r, loadT (saveT x ++ r) = some (x, r)) :
    loadCount loadT v.length ((v.map saveT).flatten ++ rest) = some (v, rest) := by
  induction v with
  | nil => simp [loadCount]
  | cons x xs ih =>
    simp only [List.map_cons, List.flatten_cons, List.length_cons, loadCount,
      List.append_assoc]
    rw [hT x (List.mem_cons_self x xs) ((xs.map saveT).flatten ++ rest)]
    dsimp only
    rw [ih (fun y hy r => hT y (List.mem_cons_of_mem x hy) r)]

lemma loadVec_saveVec (loadT : List Byte → Option (α × List Byte))
    (saveT : α → List Byte) (v : List α) (rest : List Byte)
    (hlen : v.length < raft.W64)
    (hT : ∀ x ∈ v, ∀ r, loadT (saveT x ++ r) = some (x, r)) :
    loadVec loadT (saveVec saveT v ++ rest) = some (v, rest) := by
  unfold saveVec loadVec
  rw [List.append_assoc]
  rw [loadU64_saveU64 v.length ((v.map saveT).flatten ++ rest) hlen]
  exact loadCount_roundtrip loadT saveT v rest hT

end slk

namespace raft

lemma kindOfCode_kindCode (k : DeltaKind) : kindOfCode (kindCode k) = some k := by
  cases k <;> rfl

lemma kindCode_lt (k : DeltaKind) : kindCode k < W64 := by
  cases k <;> decide

lemma loadDelta_saveDelta (d : StateDelta) (rest : List slk.Byte)
    (h : wfDelta d = true) : loadDelta (saveDelta d ++ rest) = some (d, rest) := by
  unfold saveDelta loadDelta
  rw [List.append_assoc]
  rw [slk.loadU64_saveU64 (kindCode d.kind) (slk.saveU64 d.txId ++ rest)
    (kindCode_lt d.kind)]
  dsimp only
  rw [slk.loadU64_saveU64 d.txId rest (by simpa [wfDelta] using h)]
  dsimp only
  rw [kindOfCode_kindCode d.kind]

lemma loadEntry_saveEntry (e : LogEntry) (rest : List slk.Byte)
    (h : wfEntry e = true) : loadEntry (saveEntry e ++ rest) = some (e, rest) := by
  simp only [wfEntry, Bool.and_eq_true, decide_eq_true_eq,
    List.all_eq_true] at h
  have hterm : e.term < W64 := h.1.1
  have hlen : e.deltas.length < W64 := h.1.2
  have hall : ∀ d ∈ e.deltas, wfDelta d = true := h.2
  unfold saveEntry loadEntry
  rw [List.append_assoc]
  rw [slk.loadU64_saveU64 e.term (slk.saveVec saveDelta e.deltas ++ rest) hterm]
  dsimp only
  rw [slk.loadVec_saveVec loadDelta saveDelta e.deltas rest hlen
    (fun d hd r => loadDelta_saveDelta d r (hall d hd))]

/-- C8: deserializing the serialization of any representable Raft log (all
terms, transaction ids and lengths fit in uint64, as they do for every C++
log value) yields the original log. -/
theorem claim_C8_log_roundtrip (log : List LogEntry) (h : wfLog log = true) :
    DeserializeLog (SerializeLog log) = some log := by
  simp only [wfLog, Bool.and_eq_true, decide_eq_true_eq,
    List.all_eq_true] at h
  have hlen : log.length < W64 := h.1
  have hall : ∀ e ∈ log, wfEntry e = true := h.2
  unfold SerializeLog DeserializeLog
  rw [show slk.saveVec saveEntry log = slk.saveVec saveEntry log ++ [] from
    (List.append_nil _).symm]
  rw [slk.loadVec_saveVec loadEntry saveEntry log [] hlen
    (fun e he r => loadEntry_saveEntry e r (hall e he))]

def c8Log : List LogEntry :=
  [⟨1, [⟨DeltaKind.txBegin, 10⟩, ⟨DeltaKind.setValue, 10⟩,
        ⟨DeltaKind.txCommit, 10⟩]⟩,
   ⟨2, []⟩]

theorem claim_C8_log_roundtrip_witness :
    DeserializeLog (SerializeLog c8Log) = some c8Log :=
  claim_C8_log_roundtrip c8Log (by decide)

end raft

namespace slk

lemma idxOf_lt (p : Nat) : ∀ (l : List Nat) (i : Nat),
    idxOf p l = some i → i < l.length := by
  intro l
  induction l with
  | nil =>
    intro i h
    simp [idxOf] at h
  | cons q rest ih =>
    intro i h
    by_cases hq : q = p
    · simp [idxOf, hq] at h
      simp only [List.length_cons]
      omega
    · simp only [idxOf, if_neg hq, Option.map_eq_some'] at h
      obtain ⟨j, hj, hij⟩ := h
      have := ih j hj
      simp only [List.length_cons]
      omega

lemma idxOf_getD (p : Nat) : ∀ (l : List Nat) (i : Nat),
    idxOf p l = some i → l.getD i 0 = p := by
  intro l
  induction l with
  | nil =>
    intro i h
    simp [idxOf] at h
  | cons q rest ih =>
    intro i h
    by_cases hq : q = p
    · simp [idxOf, hq] at h
      subst h
      simpa using hq
    · simp only [idxOf, if_neg hq, Option.map_eq_some'] at h
      obtain ⟨j, hj, hij⟩ := h
      subst hij
      simpa [List.getD_cons_succ] using ih j hj

lemma getD_map_nat (f : Nat → Nat) : ∀ (l : List Nat) (i : Nat),
    i < l.length → (l.map f).getD i 0 = f (l.getD i 0) := by
  intro l
  induction l with
  | nil =>
    intro i h
    exact absurd h (Nat.not_lt_zero i)
  | cons a l ih =>
    intro i h
    cases i with
    | zero => rfl
    | succ j =>
      simpa [List.getD_cons_succ] using ih j (by simpa using h)

lemma loadSharedSeq_saveSharedSeq (valFn : Nat → Nat) :
    ∀ (ps : List (Option (Nat × Nat))) (saved : List Nat),
      (∀ e ∈ ps, ∀ p v, e = some (p, v) → v = valFn p) →
      ∃ ld, loadSharedSeq ps.length (saveSharedSeq ps saved)
          (saved.map valFn) = Except.ok (canonSeq ps saved, [], ld) := by
  intro ps
  induction ps with
  | nil =>
    intro saved _
    exact ⟨saved.map valFn, rfl⟩
  | cons e rest ih =>
    intro saved h
    cases e with
    | none =>
      obtain ⟨ld, hld⟩ := ih saved
        (fun x hx => h x (List.mem_cons_of_mem _ hx))
      refine ⟨ld, ?_⟩
      simp only [saveSharedSeq, SaveShared, List.length_cons, loadSharedSeq,
        List.cons_append, List.nil_append, LoadShared, canonSeq]
      rw [hld]
    | some pv =>
      obtain ⟨p, v⟩ := pv
      have hv : v = valFn p := h (some (p, v)) (List.mem_cons_self _ _) p v rfl
      cases hidx : idxOf p saved with
      | some i =>
        have hlt : i < saved.length := idxOf_lt p saved i hidx
        have hget : saved.getD i 0 = p := idxOf_getD p saved i hidx
        obtain ⟨ld, hld⟩ := ih saved
          (fun x hx => h x (List.mem_cons_of_mem _ hx))
        refine ⟨ld, ?_⟩
        simp only [saveSharedSeq, SaveShared, hidx, List.length_cons,
          loadSharedSeq, List.cons_append, List.nil_append, LoadShared,
          canonSeq]
        rw [if_pos (by simpa using hlt)]
        have hval : (saved.map valFn).getD i 0 = valFn p := by
          rw [getD_map_nat valFn saved i hlt, hget]
        rw [hval]
        dsimp only
        rw [hld]
        dsimp only
        rw [← hv]
      | none =>
        obtain ⟨ld, hld⟩ := ih (saved ++ [p])
          (fun x hx => h x (List.mem_cons_of_mem _ hx))
        refine ⟨ld, ?_⟩
        simp only [saveSharedSeq, SaveShared, hidx, List.length_cons,
          loadSharedSeq, List.cons_append, List.nil_append, LoadShared,
          canonSeq]
        have hl2 : (saved.map valFn) ++ [v] = (saved ++ [p]).map valFn := by
          simp [hv]
        have hlen2 : (saved.map valFn).length = saved.length :=
          List.length_map saved valFn
        rw [hl2, hlen2, hld]

end slk

namespace slk

lemma wfPtrs_firstVal (ps : List (Option (Nat × Nat))) (h : wfPtrs ps = true) :
    ∀ e ∈ ps, ∀ p v, e = some (p, v) → v = firstVal ps p := by
  intro e he p v hep
  have h2 := List.all_eq_true.mp h e he
  subst hep
  simpa using h2

lemma loadShared_decodeError_shape (loaded : List Nat) :
    ∀ ts : List Token, LoadShared ts loaded = Except.error LoadErr.decodeError →
      ∃ j rest, ts = Token.tokB true :: Token.tokB false :: Token.tokU j :: rest ∧
        loaded.length ≤ j := by
  intro ts h
  cases ts with
  | nil => simp [LoadShared] at h
  | cons t rest =>
    cases t with
    | tokU n => simp [LoadShared] at h
    | tokV v => simp [LoadShared] at h
    | tokB b =>
      cases b with
      | false => simp [LoadShared] at h
      | true =>
        cases rest with
        | nil => simp [LoadShared] at h
        | cons t2 rest2 =>
          cases t2 with
          | tokU n => simp [LoadShared] at h
          | tokV v => simp [LoadShared] at h
          | tokB b2 =>
            cases b2 with
            | true =>
              cases rest2 with
              | nil => simp [LoadShared] at h
              | cons t3 rest3 =>
                cases t3 with
                | tokV v => simp [LoadShared] at h
                | tokB b3 => simp [LoadShared] at h
                | tokU n => simp [LoadShared] at h
            | false =>
              cases rest2 with
              | nil => simp [LoadShared] at h
              | cons t3 rest3 =>
                cases t3 with
                | tokB b3 => simp [LoadShared] at h
                | tokV v => simp [LoadShared] at h
                | tokU j =>
                  by_cases hj : j < loaded.length
                  · simp [LoadShared, hj] at h
                  · exact ⟨j, rest3, rfl, by omega⟩

/-- C10: within one builder session, Save writes a shared pointer in place
on its first occurrence and only a back-reference index on every later
occurrence of the same pointer; Load throws the SlkDecodeException exactly
when a decoded back-reference index is not below the number of shared
pointers loaded so far, and a good back-reference restores an alias of the
earlier loaded object, so a save and load session of any consistent
pointer sequence succeeds and returns the canonical sequence, which
carries the original values and aliases two loaded pointers exactly when
the saved pointers were identical. -/
theorem claim_C10_shared_ptr_sharing (ps : List (Option (Nat × Nat)))
    (hwf : wfPtrs ps = true) (loaded : List Nat) (i : Nat) (ts : List Token) :
    (∃ ld, loadSharedSeq ps.length (saveSharedSeq ps []) [] =
      Except.ok (canonSeq ps [], [], ld)) ∧
    (∀ p v saved, idxOf p saved = none →
      SaveShared (some (p, v)) saved =
        ([Token.tokB true, Token.tokB true, Token.tokV v], saved ++ [p])) ∧
    (∀ p v saved j, idxOf p saved = some j →
      SaveShared (some (p, v)) saved =
        ([Token.tokB true, Token.tokB false, Token.tokU j], saved)) ∧
    (LoadShared (Token.tokB true :: Token.tokB false :: Token.tokU i :: ts)
        loaded = Except.error LoadErr.decodeError ↔ loaded.length ≤ i) ∧
    (i < loaded.length →
      LoadShared (Token.tokB true :: Token.tokB false :: Token.tokU i :: ts)
        loaded = Except.ok (some (i, loaded.getD i 0), ts, loaded)) ∧
    (∀ ts2 : List Token,
      LoadShared ts2 loaded = Except.error LoadErr.decodeError →
      ∃ j rest,
        ts2 = Token.tokB true :: Token.tokB false :: Token.tokU j :: rest ∧
          loaded.length ≤ j) := by
  refine ⟨?_, ?_, ?_, ?_, ?_, loadShared_decodeError_shape loaded⟩
  · have hgo := loadSharedSeq_saveSharedSeq (firstVal ps) ps []
      (wfPtrs_firstVal ps hwf)
    simpa using hgo
  · intro p v saved hidx
    simp [SaveShared, hidx]
  · intro p v saved j hidx
    simp [SaveShared, hidx]
  · by_cases hi : i < loaded.length
    · simp [LoadShared, hi]
    · simp [LoadShared, hi]
      omega
  · intro hi
    simp [LoadShared, hi]

def c10Ptrs : List (Option (Nat × Nat)) :=
  [some (5, 10), none, some (5, 10), some (7, 3)]

theorem claim_C10_shared_ptr_sharing_witness :
    ∃ ld, loadSharedSeq c10Ptrs.length (saveSharedSeq c10Ptrs []) [] =
      Except.ok (canonSeq c10Ptrs [], [], ld) :=
  (claim_C10_shared_ptr_sharing c10Ptrs (by decide) [] 0 []).1

end slk
